import Mathlib

/-!
# Local propagator jobs (`src/client/src/libsync/propagatorjobs.cpp`)

A shallow embedding of the three local jobs `PropagateLocalRemove`,
`PropagateLocalMkdir` and `PropagateLocalRename`.

* `QString` is `String`; `+` is `++`.
* The working tree is a finite tree (`Node`) rooted at `_localDir`; file-system
  calls take absolute path strings, which are resolved against `_localDir`.
* Everything a job does that the outside can see is appended, in program
  order, to the log of the run (`Event`).
* Outcomes that the operating system decides (a removal that fails, the error
  text of a failure) and the helpers of the propagator that are not part of
  this file are collected in `Env`.
-/

namespace OCC

/-! ## Data model -/

/-- The fields of `SyncFileItem` read or written by the three jobs. -/
structure SyncFileItem where
  file : String
  originalFile : String
  renameTarget : String
  isDirectory : Bool
deriving DecidableEq, Repr

/-- The job status values of `SyncFileItem::Status` named by the specification. -/
inductive Status where
  | Success
  | NormalError
  | SoftError
  | FatalError
deriving DecidableEq, Repr

/-- A journal record: the logical path it is stored under and the item metadata
it carries verbatim. -/
structure SyncJournalFileRecord where
  path : String
  isDirectory : Bool
deriving DecidableEq, Repr

/-- The sync journal: the current records and the records made durable by the
last `commit`. -/
structure SyncJournalDb where
  records : List SyncJournalFileRecord
  durable : List SyncJournalFileRecord
deriving DecidableEq, Repr

/-- An entry of the working tree: a non-directory (regular file or symbolic
link, which line 65 treats alike) or a directory with its named entries in
iteration order. -/
inductive Node where
  | file : Node
  | dir : List (String × Node) → Node
deriving Repr

/-- The per-sync context `OwncloudPropagator` (`_localDir`, `_abortRequested`,
`_journal`, `_touchedFiles`) together with the disk below `_localDir`
(`none`: the local root itself is missing). -/
structure OwncloudPropagator where
  localDir : String
  abortRequested : Bool
  journal : SyncJournalDb
  touchedFiles : List String
  disk : Option Node

/-- Everything observable a job does, in program order. -/
inductive Event where
  | progress (item : SyncFileItem) (bytes : Nat)
  | done (status : Status) (errorString : String)
  | remove (path : String) (ok : Bool)
  | rmdir (path : String) (ok : Bool)
  | mkpath (root : String) (rel : String) (ok : Bool)
  | rename (src : String) (dst : String) (ok : Bool)
  | deleteFileRecord (path : String) (recurse : Bool)
  | setFileRecord (record : SyncJournalFileRecord)
  | commit (label : String)
  | addTouchedFile (path : String)
deriving DecidableEq, Repr

/-- The state of one job: the context it borrows, its `_item`, its `_error`
text and the log of what it has done so far. -/
structure Run where
  propagator : OwncloudPropagator
  item : SyncFileItem
  error : String
  log : List Event

/-- What the job cannot decide itself: outcomes of system calls, their error
texts, and the propagator helpers whose code is not in this file. -/
structure Env where
  /-- The result of `OwncloudPropagator::localFileNameClash(relFile)`. -/
  localFileNameClash : String → Bool
  /-- The result of `Utility::fsCasePreserving()`. -/
  fsCasePreserving : Bool
  /-- The function `QDir::toNativeSeparators`. -/
  toNativeSeparators : String → String
  /-- The path kept by a `QDir`: `QDir(path).path()`. -/
  dirPath : String → String
  /-- Whether `QFile(path).remove()` fails on an existing non-directory. -/
  removeFails : String → Bool
  /-- Whether `QDir().rmdir(path)` fails on an existing empty directory. -/
  rmdirFails : String → Bool
  /-- Whether creating the single directory `path` fails. -/
  mkdirFails : String → Bool
  /-- Whether the operating system refuses to rename `src` to `dst`. -/
  renameFails : String → String → Bool
  /-- The operating system message after a failed call on `path`. -/
  errorString : String → String

/-! ## Journal -/

/-- Whether `s` begins with `pre`. -/
def startsWith (pre s : String) : Bool :=
  pre.data.isPrefixOf s.data

/-- Modelled from the spec: `SyncJournalDb::deleteFileRecord` (syncjournaldb.cpp)
removes the record at `path`; if `recurse` is true, also removes all records
whose path begins with `path + "/"`. -/
def SyncJournalDb.deleteFileRecord (j : SyncJournalDb) (path : String) (recurse : Bool) :
    SyncJournalDb :=
  { j with
    records := j.records.filter
      (fun r => !(r.path == path || (recurse && startsWith (path ++ "/") r.path))) }

/-- Modelled from the spec: `SyncJournalDb::setFileRecord` (syncjournaldb.cpp) is
insert-or-replace by `record.path`. -/
def SyncJournalDb.setFileRecord (j : SyncJournalDb) (record : SyncJournalFileRecord) :
    SyncJournalDb :=
  { j with records := j.records.filter (fun r => !(r.path == record.path)) ++ [record] }

/-- Modelled from the spec: `SyncJournalDb::commit` (syncjournaldb.cpp) is a
durability barrier; after return, all preceding mutations survive a crash. -/
def SyncJournalDb.commit (j : SyncJournalDb) (_label : String) : SyncJournalDb :=
  { j with durable := j.records }

/-- Whether the journal has a record at `path`. -/
def SyncJournalDb.hasRecord (j : SyncJournalDb) (path : String) : Bool :=
  j.records.any (fun r => r.path == path)

/-- The number of records the journal has at `path`. -/
def SyncJournalDb.countAt (j : SyncJournalDb) (path : String) : Nat :=
  (j.records.filter (fun r => r.path == path)).length

/-! ## Disk -/

/-- Components of a slash separated path, empty components dropped; `cur` holds
the characters of the component being read, last first. -/
def splitAux : List Char → List Char → List String
  | [], cur => if cur.isEmpty then [] else [String.mk cur.reverse]
  | c :: cs, cur =>
    if c = '/' then
      (if cur.isEmpty then splitAux cs [] else String.mk cur.reverse :: splitAux cs [])
    else splitAux cs (c :: cur)

/-- Components of a slash separated path. -/
def splitPath (s : String) : List String :=
  splitAux s.data []

/-- The components of the absolute path `abs` below `localDir`; `none` when
`abs` does not lie below `localDir`. -/
def resolve (localDir abs : String) : Option (List String) :=
  if localDir.data.isPrefixOf abs.data then
    some (splitAux (abs.data.drop localDir.data.length) [])
  else none

/-- Whether the node is a directory. -/
def Node.isDir : Node → Bool
  | .file => false
  | .dir _ => true

/-- The node found by following the components from `o`. -/
def Node.get? : Option Node → List String → Option Node
  | o, [] => o
  | some (.dir es), c :: cs => Node.get? (es.lookup c) cs
  | _, _ :: _ => none

/-- Put `n` under the name `c`: in place of the first entry of that name, or
as a new last entry. -/
def setEntry (c : String) (n : Node) : List (String × Node) → List (String × Node)
  | [] => [(c, n)]
  | e :: rest => if e.1 == c then (c, n) :: rest else e :: setEntry c n rest

/-- Drop every entry named `c`. -/
def eraseEntry (c : String) (es : List (String × Node)) : List (String × Node) :=
  es.filter (fun e => !(e.1 == c))

/-- Make `o` the entry named `c` (`none`: no entry). -/
def putEntry (c : String) (o : Option Node) (es : List (String × Node)) :
    List (String × Node) :=
  match o with
  | some n => setEntry c n es
  | none => eraseEntry c es

/-- Replace what is found at the components by `new`. Nothing changes when the
parent of the place is not a directory. -/
def Node.put (new : Option Node) : List String → Option Node → Option Node
  | [], _ => new
  | c :: cs, some (.dir es) => some (.dir (putEntry c (Node.put new cs (es.lookup c)) es))
  | _ :: _, o => o

/-- The node at the absolute path `abs` of the disk below `localDir`. -/
def nodeAt (localDir : String) (disk : Option Node) (abs : String) : Option Node :=
  match resolve localDir abs with
  | some cs => Node.get? disk cs
  | none => none

/-- The disk with what is at the absolute path `abs` replaced by `new`. -/
def putAt (localDir : String) (disk : Option Node) (abs : String) (new : Option Node) :
    Option Node :=
  match resolve localDir abs with
  | some cs => Node.put new cs disk
  | none => disk

/-- Modelled from the spec: `FileSystem::fileExists(absolutePath)`
(filesystem.cpp) tests existence: something is at `abs`. -/
def OwncloudPropagator.fileExists (p : OwncloudPropagator) (abs : String) : Bool :=
  (nodeAt p.localDir p.disk abs).isSome

/-- The test `QDir(abs).exists()`: a directory is at `abs` (false for a file of that
name). -/
def OwncloudPropagator.dirExists (p : OwncloudPropagator) (abs : String) : Bool :=
  match nodeAt p.localDir p.disk abs with
  | some n => n.isDir
  | none => false

/-- Modelled from the spec: `OwncloudPropagator::getFilePath(relative)`
(owncloudpropagator.h), the absolute path of a logical path. -/
def OwncloudPropagator.getFilePath (p : OwncloudPropagator) (rel : String) : String :=
  p.localDir ++ rel

/-! ## Effects of a run -/

/-- Append an event to the log. -/
def Run.emit (r : Run) (e : Event) : Run :=
  { r with log := r.log ++ [e] }

/-- The signal `emit progress(_item, bytes)`. -/
def Run.progress (r : Run) (bytes : Nat) : Run :=
  r.emit (.progress r.item bytes)

/-- The signal `done(status, errorString)`. -/
def Run.done (r : Run) (status : Status) (errorString : String) : Run :=
  r.emit (.done status errorString)

/-- The call `_propagator->_journal->deleteFileRecord(path, recurse)`. -/
def Run.deleteFileRecord (r : Run) (path : String) (recurse : Bool) : Run :=
  { r with
    propagator := { r.propagator with
      journal := r.propagator.journal.deleteFileRecord path recurse }
    log := r.log ++ [.deleteFileRecord path recurse] }

/-- The call `_propagator->_journal->setFileRecord(record)`. -/
def Run.setFileRecord (r : Run) (record : SyncJournalFileRecord) : Run :=
  { r with
    propagator := { r.propagator with journal := r.propagator.journal.setFileRecord record }
    log := r.log ++ [.setFileRecord record] }

/-- The call `_propagator->_journal->commit(label)`. -/
def Run.commit (r : Run) (label : String) : Run :=
  { r with
    propagator := { r.propagator with journal := r.propagator.journal.commit label }
    log := r.log ++ [.commit label] }

/-- Modelled from the spec: `OwncloudPropagator::addTouchedFile(path)`
(owncloudpropagator.cpp) adds the path to the set `touchedFiles`. -/
def Run.addTouchedFile (r : Run) (path : String) : Run :=
  { r with
    propagator := { r.propagator with
      touchedFiles :=
        if path ∈ r.propagator.touchedFiles then r.propagator.touchedFiles
        else r.propagator.touchedFiles ++ [path] }
    log := r.log ++ [.addTouchedFile path] }

/-- A job bound to an item and a context, before `start()`. -/
def Run.init (p : OwncloudPropagator) (item : SyncFileItem) : Run :=
  { propagator := p, item := item, error := "", log := [] }

/-- The run ended by signalling `done(status, _)`. -/
def Run.doneWith (r : Run) (status : Status) : Bool :=
  match r.log.getLast? with
  | some (.done s _) => s == status
  | _ => false

/-! ## PropagateLocalRemove -/

/-- Lines 69-75: `QFile f(filePath); ok = f.remove();` on a non-directory entry,
with the error text appended to `_error` on failure. -/
def removeFile (env : Env) (filePath : String) (r : Run) : Bool × Run :=
  let ok := !env.removeFails filePath
  let r1 := r.emit (.remove filePath ok)
  if !ok then
    (false, { r1 with
      error := r1.error ++ ("Error removing '" ++ env.toNativeSeparators filePath ++ "': "
        ++ env.errorString filePath ++ ";" ++ " ") })
  else (true, r1)

/-- Lines 77-93: the bookkeeping of `removeRecursively(path)` after the entry
`name` was handled with outcome `ok`. -/
def afterEntry (path name : String) (isDir ok : Bool) (success : Bool)
    (deleted : List (String × Bool)) (r : Run) : Bool × List (String × Bool) × Run :=
  let flush := success && !ok
  let r1 :=
    if flush then
      deleted.foldl
        (fun acc it => acc.deleteFileRecord (r.item.originalFile ++ path ++ "/" ++ it.1) it.2) r
    else r
  let success1 := if flush then false else success
  let deleted1 := if flush then [] else deleted
  let deleted2 := if success1 then deleted1 ++ [(name, isDir)] else deleted1
  let r2 :=
    if !success1 && ok then
      r1.deleteFileRecord (r.item.originalFile ++ path ++ "/" ++ name) isDir
    else r1
  (success1, deleted2, r2)

/-- Lines 95-103: when `success` still holds, `QDir().rmdir(absolute)` with
outcome `rmdirOk`, and the error text on failure. -/
def rmdirStep (env : Env) (absolute : String) (rmdirOk : Bool) (success : Bool) (r : Run) :
    Bool × Run :=
  if success then
    let r1 := r.emit (.rmdir absolute rmdirOk)
    if !rmdirOk then
      (false, { r1 with
        error := r1.error ++ ("Could not remove directory '" ++ env.toNativeSeparators absolute
          ++ "';" ++ " ") })
    else (true, r1)
  else (false, r)

mutual
/-- The function `PropagateLocalRemove::removeRecursively(path)`, run on the node found at
`absolute`. Returns the return value, what is left of the node on disk, and the
run. The caller stores what is left in its own directory. -/
def removeRecursively (env : Env) (path : String) : Node → Run → Bool × Option Node × Run
  | .file, r =>
    let absolute := r.propagator.localDir ++ r.item.file ++ path
    let res := rmdirStep env absolute false true r
    (res.1, some .file, res.2)
  | .dir es, r =>
    let absolute := r.propagator.localDir ++ r.item.file ++ path
    let loop := removeEntries env path es true [] r
    let res := rmdirStep env absolute (loop.2.1.isEmpty && !env.rmdirFails absolute)
      loop.1 loop.2.2
    (res.1, if res.1 then none else some (.dir loop.2.1), res.2)
/-- The `while (di.hasNext())` loop of `removeRecursively(path)` over the
entries not yet visited, with the current `success` and `deleted`. Returns
`success`, the entries left on disk, and the run. -/
def removeEntries (env : Env) (path : String) :
    List (String × Node) → Bool → List (String × Bool) → Run →
      Bool × List (String × Node) × Run
  | [], success, _, r => (success, [], r)
  | (name, node) :: rest, success, deleted, r =>
    let absolute := r.propagator.localDir ++ r.item.file ++ path
    let isDir := node.isDir
    let one : Bool × Option Node × Run :=
      if isDir then removeRecursively env (path ++ "/" ++ name) node r
      else
        let res := removeFile env (absolute ++ "/" ++ name) r
        (res.1, if res.1 then none else some node, res.2)
    let after := afterEntry path name isDir one.1 success deleted one.2.2
    let more := removeEntries env path rest after.1 after.2.1 after.2.2
    (more.1, (match one.2.1 with | some n => [(name, n)] | none => []) ++ more.2.1, more.2.2)
end

/-- Lines 130-133 of `PropagateLocalRemove::start`. -/
def PropagateLocalRemove.finish (r : Run) : Run :=
  (((r.progress 0).deleteFileRecord r.item.originalFile r.item.isDirectory).commit
    "Local remove").done .Success ""

/-- The job `PropagateLocalRemove::start()`, lines 106-134. -/
def PropagateLocalRemove.start (env : Env) (p : OwncloudPropagator) (item : SyncFileItem) :
    Run :=
  let r := Run.init p item
  if p.abortRequested then r
  else
    let filename := p.localDir ++ item.file
    if env.localFileNameClash item.file then
      r.done .NormalError ("Could not remove " ++ env.toNativeSeparators filename
        ++ " because of a local file name clash")
    else if item.isDirectory then
      match nodeAt p.localDir p.disk filename with
      | some (.dir es) =>
        let res := removeRecursively env "" (.dir es) r
        let r1 : Run := { res.2.2 with
          propagator := { res.2.2.propagator with
            disk := putAt p.localDir p.disk filename res.2.1 } }
        if !res.1 then r1.done .NormalError r1.error
        else PropagateLocalRemove.finish r1
      | _ => PropagateLocalRemove.finish r
    else
      match nodeAt p.localDir p.disk filename with
      | some node =>
        let ok := !node.isDir && !env.removeFails filename
        let r1 := r.emit (.remove filename ok)
        if !ok then r1.done .NormalError (env.errorString filename)
        else
          PropagateLocalRemove.finish { r1 with
            propagator := { r1.propagator with
              disk := putAt p.localDir p.disk filename none } }
      | none => PropagateLocalRemove.finish r

/-- Lines 57-103 of `removeRecursively(path)` for a directory whose entries are
given with the outcome of handling each: `(name, isDir, ok)`, where `ok` is the
result of `f.remove()` or of the recursive call. The loop part. -/
def entryLoop (path : String) :
    List (String × Bool × Bool) → Bool → List (String × Bool) → Run →
      Bool × List (String × Bool) × Run
  | [], success, deleted, r => (success, deleted, r)
  | (name, isDir, ok) :: rest, success, deleted, r =>
    let after := afterEntry path name isDir ok success deleted r
    entryLoop path rest after.1 after.2.1 after.2.2

/-- One invocation of `removeRecursively(path)` with the outcomes of its entries
and of the final `rmdir` given. -/
def removeRecursivelyWith (env : Env) (path : String) (entries : List (String × Bool × Bool))
    (rmdirOk : Bool) (r : Run) : Bool × Run :=
  let absolute := r.propagator.localDir ++ r.item.file ++ path
  let loop := entryLoop path entries true [] r
  rmdirStep env absolute rmdirOk loop.1 loop.2.2

/-! ## PropagateLocalMkdir -/

/-- The absolute path of the components `pre` below `localDir`. -/
def absOf (localDir : String) (pre : List String) : String :=
  localDir ++ "/".intercalate pre

/-- The call `QDir(localDir).mkpath(rel)`: make the directory at the components still to
go and every missing parent; `pre` are the components already passed. Fails at
a component that is a file or whose creation fails. -/
def mkpath (env : Env) (localDir : String) :
    List String → List String → Option Node → Bool × Option Node
  | _, [], some .file => (false, some .file)
  | _, [], some (.dir es) => (true, some (.dir es))
  | pre, [], none =>
    if env.mkdirFails (absOf localDir pre) then (false, none) else (true, some (.dir []))
  | _, _ :: _, some .file => (false, some .file)
  | pre, c :: cs, some (.dir es) =>
    let sub := mkpath env localDir (pre ++ [c]) cs (es.lookup c)
    (sub.1, some (.dir (putEntry c sub.2 es)))
  | pre, c :: cs, none =>
    if env.mkdirFails (absOf localDir pre) then (false, none)
    else
      let sub := mkpath env localDir (pre ++ [c]) cs none
      (sub.1, some (.dir (putEntry c sub.2 [])))

/-- The job `PropagateLocalMkdir::start()`, lines 136-155. -/
def PropagateLocalMkdir.start (env : Env) (p : OwncloudPropagator) (item : SyncFileItem) :
    Run :=
  let r := Run.init p item
  if p.abortRequested then r
  else
    let newDirStr := env.toNativeSeparators (env.dirPath (p.localDir ++ item.file))
    if env.fsCasePreserving && env.localFileNameClash item.file then
      r.done .NormalError ("Attention, possible case sensitivity clash with " ++ newDirStr)
    else
      let r1 := r.addTouchedFile newDirStr
      let made := mkpath env p.localDir [] (splitPath item.file) p.disk
      let r2 : Run := ({ r1 with propagator := { r1.propagator with disk := made.2 } }).emit
        (.mkpath p.localDir item.file made.1)
      if !made.1 then r2.done .NormalError ("could not create directory " ++ newDirStr)
      else r2.done .Success ""

/-! ## PropagateLocalRename -/

/-- Lower-case form used by the case-insensitive comparison. -/
def foldCase (s : String) : List Char :=
  s.data.map Char.toLower

/-- Lexicographic comparison by code point: negative, zero or positive. -/
def compareCodes : List Char → List Char → Int
  | [], [] => 0
  | [], _ :: _ => -1
  | _ :: _, [] => 1
  | a :: as, b :: bs =>
    if a.toNat < b.toNat then -1
    else if b.toNat < a.toNat then 1
    else compareCodes as bs

/-- The comparison `QString::compare(a, b, Qt::CaseInsensitive)`. -/
def compareCaseInsensitive (a b : String) : Int :=
  compareCodes (foldCase a) (foldCase b)

/-- Modelled from the spec: `FileSystem::rename(src, dst)` (filesystem.cpp)
returns `(ok, errorText)`; after success the source path no longer exists and
the destination holds what the source held. Fails when the system refuses,
the source is missing, or the destination has no parent directory. -/
def FileSystem.rename (env : Env) (localDir : String) (disk : Option Node) (src dst : String) :
    Except String (Option Node) :=
  if env.renameFails src dst then .error (env.errorString src)
  else
    match nodeAt localDir disk src with
    | none => .error (env.errorString src)
    | some node =>
      let moved := putAt localDir (putAt localDir disk src none) dst (some node)
      if (nodeAt localDir moved dst).isSome then .ok moved
      else .error (env.errorString dst)

/-- Lines 192-206 of `PropagateLocalRename::start`. -/
def PropagateLocalRename.finish (r : Run) : Run :=
  let r1 := r.deleteFileRecord r.item.originalFile false
  let r2 : Run := { r1 with item := { r1.item with file := r1.item.renameTarget } }
  let record : SyncJournalFileRecord :=
    { path := r2.item.renameTarget, isDirectory := r2.item.isDirectory }
  let r3 := if !r2.item.isDirectory then r2.setFileRecord record else r2
  (r3.commit "localRename").done .Success ""

/-- The text of the name clash error of `PropagateLocalRename::start`. -/
def renameClashText (env : Env) (item : SyncFileItem) : String :=
  "File " ++ env.toNativeSeparators item.file ++ " can not be renamed to "
    ++ env.toNativeSeparators item.renameTarget ++ " because of a local file name clash"

/-- The job `PropagateLocalRename::start()`, lines 157-207. -/
def PropagateLocalRename.start (env : Env) (p : OwncloudPropagator) (item : SyncFileItem) :
    Run :=
  let r := Run.init p item
  if p.abortRequested then r
  else
    let existingFile := p.getFilePath item.file
    let targetFile := p.getFilePath item.renameTarget
    if item.file != item.renameTarget then
      let r1 := r.progress 0
      if compareCaseInsensitive item.file item.renameTarget != 0
          && env.localFileNameClash item.renameTarget then
        r1.done .NormalError (renameClashText env item)
      else
        let r2 := (r1.addTouchedFile existingFile).addTouchedFile targetFile
        match FileSystem.rename env p.localDir p.disk existingFile targetFile with
        | .error renameError =>
          (r2.emit (.rename existingFile targetFile false)).done .NormalError renameError
        | .ok disk =>
          PropagateLocalRename.finish
            (({ r2 with propagator := { r2.propagator with disk := disk } } : Run).emit
              (.rename existingFile targetFile true))
    else PropagateLocalRename.finish r

/-! ## Auxiliary definitions for the statements -/

/-- What the recursive removal leaves alone: the item and, of the context,
everything but the journal. -/
def Run.sameFrame (r r1 : Run) : Prop :=
  r1.item = r.item ∧ r1.propagator.localDir = r.propagator.localDir ∧
    r1.propagator.abortRequested = r.propagator.abortRequested ∧
    r1.propagator.touchedFiles = r.propagator.touchedFiles ∧
    r1.propagator.disk = r.propagator.disk

/-- The journal calls for the list `ks` of `(name, isDir)` under `base`. -/
def flushAll (base : String) (ks : List (String × Bool)) (r : Run) : Run :=
  ks.foldl (fun acc it => acc.deleteFileRecord (base ++ it.1) it.2) r

/-- The entries handled with success, as `(name, isDir)`. -/
def okEntries (es : List (String × Bool × Bool)) : List (String × Bool) :=
  (es.filter (fun e => e.2.2)).map (fun e => (e.1, e.2.1))

/-- Whether the event is a call on the journal. -/
def Event.isJournalCall : Event → Bool
  | .deleteFileRecord _ _ => true
  | .setFileRecord _ => true
  | .commit _ => true
  | _ => false

/-- The parent of the place named by the components is a directory. -/
def parentIsDir (disk : Option Node) (cs : List String) : Bool :=
  match Node.get? disk cs.dropLast with
  | some n => n.isDir
  | none => false

/-! ## Sample systems, trees and items -/

/-- A case-sensitive Unix system on which every call succeeds. -/
def unixEnv : Env :=
  { localFileNameClash := fun _ => false
    fsCasePreserving := false
    toNativeSeparators := fun s => s
    dirPath := fun s => s
    removeFails := fun _ => false
    rmdirFails := fun _ => false
    mkdirFails := fun _ => false
    renameFails := fun _ _ => false
    errorString := fun _ => "Permission denied" }

/-- The working tree `/root/` holding `a/b.txt`, with a journal record for each. -/
def sampleTree : OwncloudPropagator :=
  { localDir := "/root/"
    abortRequested := false
    journal := { records := [⟨"a", true⟩, ⟨"a/b.txt", false⟩], durable := [] }
    touchedFiles := []
    disk := some (.dir [("a", .dir [("b.txt", .file)])]) }

/-- The directory item `a`. -/
def dirItemA : SyncFileItem :=
  { file := "a", originalFile := "a", renameTarget := "", isDirectory := true }

/-- The empty working tree `/root/` with an empty journal. -/
def emptyTree : OwncloudPropagator :=
  { localDir := "/root/"
    abortRequested := false
    journal := { records := [], durable := [] }
    touchedFiles := []
    disk := some (.dir []) }

/-- The directory item `x/y`. -/
def dirItemXY : SyncFileItem :=
  { file := "x/y", originalFile := "x/y", renameTarget := "", isDirectory := true }

/-- The file item renaming `a/b.txt` to `c.txt`. -/
def renameItem : SyncFileItem :=
  { file := "a/b.txt", originalFile := "a/b.txt", renameTarget := "c.txt",
    isDirectory := false }

/-- The file item whose three names are all `a/b.txt`: a file below a directory
that was moved, already at its place. -/
def settledItem : SyncFileItem :=
  { file := "a/b.txt", originalFile := "a/b.txt", renameTarget := "a/b.txt",
    isDirectory := false }

/-- The file item `gone.txt`, which is not on disk. -/
def goneItem : SyncFileItem :=
  { file := "gone.txt", originalFile := "gone.txt", renameTarget := "",
    isDirectory := false }

/-- The working tree `/root/` holding the regular file `a`. -/
def fileTree : OwncloudPropagator :=
  { localDir := "/root/"
    abortRequested := false
    journal := { records := [⟨"a", true⟩], durable := [] }
    touchedFiles := []
    disk := some (.dir [("a", .file)]) }

/-- The directory item `x`. -/
def dirItemX : SyncFileItem :=
  { file := "x", originalFile := "x", renameTarget := "", isDirectory := true }

/-- The empty working tree with a journal record left below `x`. -/
def staleTree : OwncloudPropagator :=
  { emptyTree with journal := { records := [⟨"x/old.txt", false⟩], durable := [] } }

/-- A system on which removing the directory `/root/a` fails. -/
def rmdirFailEnv : Env :=
  { unixEnv with rmdirFails := fun path => path == "/root/a" }

/-! ## Frame of the recursive removal -/

theorem Run.sameFrame_refl (r : Run) : r.sameFrame r :=
  ⟨rfl, rfl, rfl, rfl, rfl⟩

theorem Run.sameFrame_trans {a b c : Run} (h1 : a.sameFrame b) (h2 : b.sameFrame c) :
    a.sameFrame c := by
  obtain ⟨h11, h12, h13, h14, h15⟩ := h1
  obtain ⟨h21, h22, h23, h24, h25⟩ := h2
  exact ⟨h21.trans h11, h22.trans h12, h23.trans h13, h24.trans h14, h25.trans h15⟩

theorem sameFrame_deleteFileRecord (r : Run) (path : String) (rec : Bool) :
    r.sameFrame (r.deleteFileRecord path rec) :=
  ⟨rfl, rfl, rfl, rfl, rfl⟩

theorem sameFrame_flush (f : String × Bool → String) :
    ∀ (d : List (String × Bool)) (r : Run),
      r.sameFrame (d.foldl (fun acc it => acc.deleteFileRecord (f it) it.2) r)
  | [], r => r.sameFrame_refl
  | it :: d, r => by
    simp only [List.foldl_cons]
    exact Run.sameFrame_trans (sameFrame_deleteFileRecord r _ _) (sameFrame_flush f d _)

theorem sameFrame_afterEntry (path name : String) (isDir ok success : Bool)
    (deleted : List (String × Bool)) (r : Run) :
    r.sameFrame (afterEntry path name isDir ok success deleted r).2.2 := by
  cases success <;> cases ok <;> simp only [afterEntry, Bool.and_true, Bool.and_false,
    Bool.not_true, Bool.not_false, Bool.false_and, Bool.true_and, if_true, if_false,
    Bool.false_eq_true, reduceIte]
  · exact r.sameFrame_refl
  · exact sameFrame_deleteFileRecord _ _ _
  · exact sameFrame_flush (fun it => r.item.originalFile ++ path ++ "/" ++ it.1) deleted r
  · exact r.sameFrame_refl

theorem sameFrame_rmdirStep (env : Env) (absolute : String) (rmdirOk success : Bool) (r : Run) :
    r.sameFrame (rmdirStep env absolute rmdirOk success r).2 := by
  unfold rmdirStep
  cases success <;> cases rmdirOk <;> exact ⟨rfl, rfl, rfl, rfl, rfl⟩

theorem sameFrame_removeFile (env : Env) (filePath : String) (r : Run) :
    r.sameFrame (removeFile env filePath r).2 := by
  unfold removeFile
  cases env.removeFails filePath <;> exact ⟨rfl, rfl, rfl, rfl, rfl⟩

mutual
theorem sameFrame_removeRecursively (env : Env) :
    ∀ (n : Node) (path : String) (r : Run), r.sameFrame (removeRecursively env path n r).2.2
  | .file, path, r => by
    rw [removeRecursively]
    exact sameFrame_rmdirStep _ _ _ _ _
  | .dir es, path, r => by
    rw [removeRecursively]
    exact Run.sameFrame_trans (sameFrame_removeEntries env es path true [] r)
      (sameFrame_rmdirStep _ _ _ _ _)
theorem sameFrame_removeEntries (env : Env) :
    ∀ (es : List (String × Node)) (path : String) (s : Bool) (d : List (String × Bool))
      (r : Run), r.sameFrame (removeEntries env path es s d r).2.2
  | [], path, s, d, r => by
    rw [removeEntries]
    exact r.sameFrame_refl
  | (name, node) :: rest, path, s, d, r => by
    rw [removeEntries]
    simp only
    refine Run.sameFrame_trans (Run.sameFrame_trans ?_ (sameFrame_afterEntry _ _ _ _ _ _ _))
      (sameFrame_removeEntries env rest path _ _ _)
    split
    · exact sameFrame_removeRecursively env node _ r
    · exact sameFrame_removeFile _ _ _
end

/-! ## Paths and the disk tree -/

theorem resolve_append (localDir rel : String) :
    resolve localDir (localDir ++ rel) = some (splitPath rel) := by
  unfold resolve splitPath
  have h : localDir.data.isPrefixOf (localDir ++ rel).data = true := by
    rw [String.data_append, List.isPrefixOf_iff_prefix]
    exact List.prefix_append _ _
  rw [if_pos h, String.data_append, List.drop_left]

theorem lookup_setEntry (c : String) (n : Node) :
    ∀ es : List (String × Node), (setEntry c n es).lookup c = some n
  | [] => by simp [setEntry, List.lookup]
  | e :: rest => by
    by_cases h : e.1 == c
    · simp [setEntry, h, List.lookup]
    · obtain ⟨k, v⟩ := e
      have hk : (c == k) = false := by
        simp only [beq_iff_eq] at h
        simpa using fun hc : c = k => h hc.symm
      simp only [setEntry, h, Bool.false_eq_true, if_false, List.lookup_cons, hk]
      exact lookup_setEntry c n rest

theorem lookup_eraseEntry (c : String) :
    ∀ es : List (String × Node), (eraseEntry c es).lookup c = none
  | [] => rfl
  | (k, v) :: rest => by
    have ih := lookup_eraseEntry c rest
    unfold eraseEntry at ih ⊢
    by_cases h : k = c
    · subst h
      simpa [List.filter_cons] using ih
    · have hk : (c == k) = false := by simpa using fun hc : c = k => h hc.symm
      simp [List.filter_cons, h, List.lookup_cons, hk, ih]

theorem lookup_putEntry (c : String) (o : Option Node) (es : List (String × Node)) :
    (putEntry c o es).lookup c = o := by
  cases o with
  | none => exact lookup_eraseEntry c es
  | some n => exact lookup_setEntry c n es

theorem get?_put_none : ∀ (cs : List String) (d : Option Node),
    Node.get? (Node.put none cs d) cs = none
  | [], d => by simp [Node.put, Node.get?]
  | c :: cs, none => by simp [Node.put, Node.get?]
  | c :: cs, some .file => by simp [Node.put, Node.get?]
  | c :: cs, some (.dir es) => by
    simp only [Node.put, Node.get?, lookup_putEntry]
    exact get?_put_none cs _

theorem nodeAt_putAt_none (localDir rel : String) (disk : Option Node) :
    nodeAt localDir (putAt localDir disk (localDir ++ rel) none) (localDir ++ rel) = none := by
  simp only [nodeAt, putAt, resolve_append]
  exact get?_put_none _ _

/-- C3: a job entered with `abortRequested` set leaves the context (disk tree,
journal, touched files) and the item as they were and emits no signal, for each
of the three jobs. -/
theorem abort_is_silent (env : Env) (p : OwncloudPropagator) (item : SyncFileItem)
    (h : p.abortRequested = true) :
    ((PropagateLocalRemove.start env p item).propagator = p ∧
      (PropagateLocalRemove.start env p item).item = item ∧
      (PropagateLocalRemove.start env p item).log = []) ∧
    ((PropagateLocalMkdir.start env p item).propagator = p ∧
      (PropagateLocalMkdir.start env p item).item = item ∧
      (PropagateLocalMkdir.start env p item).log = []) ∧
    ((PropagateLocalRename.start env p item).propagator = p ∧
      (PropagateLocalRename.start env p item).item = item ∧
      (PropagateLocalRename.start env p item).log = []) := by
  simp [PropagateLocalRemove.start, PropagateLocalMkdir.start, PropagateLocalRename.start, h,
    Run.init]

theorem abort_is_silent_witness :
    let p : OwncloudPropagator := { sampleTree with abortRequested := true }
    p.abortRequested = true ∧
      (PropagateLocalRemove.start unixEnv p dirItemA).propagator = p ∧
      (PropagateLocalRemove.start unixEnv p dirItemA).log = [] :=
  ⟨rfl, (abort_is_silent unixEnv _ dirItemA rfl).1.1, (abort_is_silent unixEnv _ dirItemA rfl).1.2.2⟩

/-! ## One invocation of the recursive removal -/

theorem flushAll_append (base : String) (ks ks2 : List (String × Bool)) (r : Run) :
    flushAll base (ks ++ ks2) r = flushAll base ks2 (flushAll base ks r) := by
  simp [flushAll, List.foldl_append]

theorem flushAll_log (base : String) : ∀ (ks : List (String × Bool)) (r : Run),
    (flushAll base ks r).log = r.log ++ ks.map (fun it => Event.deleteFileRecord (base ++ it.1) it.2)
  | [], r => by simp [flushAll]
  | it :: ks, r => by
    have ih := flushAll_log base ks (r.deleteFileRecord (base ++ it.1) it.2)
    simp only [flushAll, List.foldl_cons] at ih ⊢
    rw [ih]
    simp [Run.deleteFileRecord]

theorem flushAll_item (base : String) : ∀ (ks : List (String × Bool)) (r : Run),
    (flushAll base ks r).item = r.item
  | [], r => rfl
  | it :: ks, r => by
    have ih := flushAll_item base ks (r.deleteFileRecord (base ++ it.1) it.2)
    simp only [flushAll, List.foldl_cons] at ih ⊢
    rw [ih]
    rfl

theorem entryLoop_spec (path : String) :
    ∀ (es : List (String × Bool × Bool)) (s : Bool) (d : List (String × Bool)) (r : Run),
      (entryLoop path es s d r).1 = (s && es.all (fun e => e.2.2)) ∧
      (entryLoop path es s d r).2.2 =
        if s && es.all (fun e => e.2.2) then r
        else flushAll (r.item.originalFile ++ path ++ "/")
          ((if s then d else []) ++ okEntries es) r
  | [], s, d, r => by
    cases s <;> simp [entryLoop, okEntries, flushAll]
  | (name, isDir, ok) :: rest, s, d, r => by
    have ih := entryLoop_spec path rest
    rw [entryLoop]
    cases s <;> cases ok
    · -- failed before, this entry fails
      have h := ih false d r
      simpa [afterEntry, okEntries] using h
    · -- failed before, this entry is removed
      have h := ih false d (r.deleteFileRecord (r.item.originalFile ++ path ++ "/" ++ name) isDir)
      simp only [afterEntry, Bool.false_and, Bool.false_eq_true, if_false, Bool.not_false,
        Bool.and_true, Bool.true_and, if_true, reduceIte] at h ⊢
      refine ⟨h.1, ?_⟩
      rw [h.2]
      simp [okEntries, flushAll, Run.deleteFileRecord, String.append_assoc]
    · -- first failure: flush
      have h := ih false [] (flushAll (r.item.originalFile ++ path ++ "/") d r)
      simp only [Bool.false_and, Bool.false_eq_true, if_false, List.nil_append,
        flushAll_item] at h
      have hf : (d.foldl (fun acc it =>
          acc.deleteFileRecord (r.item.originalFile ++ path ++ "/" ++ it.1) it.2) r) =
          flushAll (r.item.originalFile ++ path ++ "/") d r := rfl
      simp only [afterEntry, Bool.true_and, Bool.not_false, if_true, Bool.false_eq_true,
        if_false, Bool.and_false, reduceIte, hf, List.all_cons]
      refine ⟨h.1, ?_⟩
      rw [h.2, flushAll_append]
      simp [okEntries]
    · -- still successful
      have h := ih true (d ++ [(name, isDir)]) r
      simp only [Bool.true_and, if_true] at h
      simp only [afterEntry, Bool.true_and, Bool.not_true, Bool.false_eq_true, if_false,
        if_true, Bool.not_true, Bool.and_true, Bool.false_and, reduceIte, List.all_cons]
      refine ⟨h.1, ?_⟩
      rw [h.2]
      simp [okEntries]

/-- C10: one invocation of `removeRecursively(path)`, its entries given as
`(name, isDir, ok)` in iteration order: when some entry has `ok = false` its
journal calls are exactly one `deleteFileRecord(originalFile + path + "/" + name,
isDir)` for each entry with `ok = true` and none for the others; when every
entry has `ok = true` it makes no journal call at all (its only action is the
`rmdir`); and it returns true exactly when every entry has `ok = true` and the
`rmdir` succeeds. -/
theorem removeRecursively_journal_calls (env : Env) (path : String)
    (entries : List (String × Bool × Bool)) (rmdirOk : Bool) (r : Run) :
    (removeRecursivelyWith env path entries rmdirOk r).2.log =
      (if entries.all (fun e => e.2.2) then
        r.log ++ [Event.rmdir (r.propagator.localDir ++ r.item.file ++ path) rmdirOk]
      else
        r.log ++ (entries.filter (fun e => e.2.2)).map (fun e =>
          Event.deleteFileRecord (r.item.originalFile ++ path ++ "/" ++ e.1) e.2.1)) ∧
    ((removeRecursivelyWith env path entries rmdirOk r).1 = true ↔
      ((∀ e ∈ entries, e.2.2 = true) ∧ rmdirOk = true)) := by
  obtain ⟨h1, h2⟩ := entryLoop_spec path entries true [] r
  simp only [Bool.true_and, if_true, List.nil_append] at h1 h2
  unfold removeRecursivelyWith
  simp only [h1, h2]
  by_cases hall : entries.all (fun e => e.2.2) = true
  · have hall2 : ∀ e ∈ entries, e.2.2 = true := by simpa using hall
    simp only [hall, if_true, rmdirStep]
    cases rmdirOk
    · exact ⟨by simp [Run.emit], by simp⟩
    · exact ⟨by simp [Run.emit], by simpa using hall2⟩
  · have hall2 : ¬ ∀ e ∈ entries, e.2.2 = true := by simpa using hall
    simp only [hall, rmdirStep, Bool.false_eq_true, if_false, flushAll_log, okEntries,
      List.map_map]
    refine ⟨?_, ?_⟩
    · congr 1
    · constructor
      · intro h
        exact absurd h (by simp)
      · intro h
        exact absurd h.1 hall2

/-! ## How a run ends -/

theorem doneWith_done (r : Run) (s t : Status) (m : String) :
    (r.done s m).doneWith t = (s == t) := by
  simp [Run.doneWith, Run.done, Run.emit]

theorem doneWith_init (p : OwncloudPropagator) (item : SyncFileItem) (t : Status) :
    (Run.init p item).doneWith t = false := by
  simp [Run.doneWith, Run.init]

theorem remove_finish_log (r : Run) :
    (PropagateLocalRemove.finish r).log =
      (r.log ++ [Event.progress r.item 0,
        Event.deleteFileRecord r.item.originalFile r.item.isDirectory]) ++
      [Event.commit "Local remove", Event.done .Success ""] := by
  simp [PropagateLocalRemove.finish, Run.done, Run.emit, Run.commit, Run.deleteFileRecord,
    Run.progress]

theorem remove_finish_propagator (r : Run) :
    (PropagateLocalRemove.finish r).propagator =
      { r.propagator with
        journal := (r.propagator.journal.deleteFileRecord r.item.originalFile
          r.item.isDirectory).commit "Local remove" } := by
  simp [PropagateLocalRemove.finish, Run.done, Run.emit, Run.commit, Run.deleteFileRecord,
    Run.progress]

theorem remove_finish_doneWith (r : Run) :
    (PropagateLocalRemove.finish r).doneWith .Success = true := by
  simp [PropagateLocalRemove.finish, doneWith_done]

/-- The ways `PropagateLocalRemove::start` can end: silently on abort, with an
error, or through lines 130-133 from a state in which the target is gone or, for
a directory item, is a file that was left alone. -/
theorem remove_start_cases (env : Env) (p : OwncloudPropagator) (item : SyncFileItem) :
    (p.abortRequested = true ∧ PropagateLocalRemove.start env p item = Run.init p item) ∨
    (∃ (r : Run) (m : String), PropagateLocalRemove.start env p item = r.done .NormalError m) ∨
    (∃ r : Run, PropagateLocalRemove.start env p item = PropagateLocalRemove.finish r ∧
      p.abortRequested = false ∧ env.localFileNameClash item.file = false ∧
      r.item = item ∧ r.propagator.localDir = p.localDir ∧
      r.propagator.abortRequested = false ∧
      (nodeAt p.localDir r.propagator.disk (p.localDir ++ item.file) = none ∨
        (item.isDirectory = true ∧
          nodeAt p.localDir p.disk (p.localDir ++ item.file) = some .file ∧
          r.propagator.disk = p.disk)) ∧
      (nodeAt p.localDir p.disk (p.localDir ++ item.file) = none → r = Run.init p item)) := by
  unfold PropagateLocalRemove.start
  dsimp only
  by_cases habort : p.abortRequested = true
  · rw [if_pos habort]
    exact Or.inl ⟨habort, rfl⟩
  have habort2 : p.abortRequested = false := by simpa using habort
  rw [if_neg habort]
  by_cases hclash : env.localFileNameClash item.file = true
  · rw [if_pos hclash]
    exact Or.inr (Or.inl ⟨_, _, rfl⟩)
  have hclash2 : env.localFileNameClash item.file = false := by simpa using hclash
  rw [if_neg hclash]
  by_cases hdir : item.isDirectory = true
  · rw [if_pos hdir]
    cases hnode : nodeAt p.localDir p.disk (p.localDir ++ item.file) with
    | none =>
      exact Or.inr (Or.inr ⟨_, rfl, habort2, hclash2, rfl, rfl, habort2, Or.inl hnode,
        fun _ => rfl⟩)
    | some n =>
      cases n with
      | file =>
        exact Or.inr (Or.inr ⟨_, rfl, habort2, hclash2, rfl, rfl, habort2,
          Or.inr ⟨hdir, rfl, rfl⟩, fun h => by simp at h⟩)
      | dir es =>
        dsimp only
        obtain ⟨hf1, hf2, hf3, hf4, hf5⟩ :=
          sameFrame_removeRecursively env (.dir es) "" (Run.init p item)
        cases hres : (removeRecursively env "" (.dir es) (Run.init p item)).1 with
        | false =>
          exact Or.inr (Or.inl ⟨_, _, rfl⟩)
        | true =>
          have hleft : (removeRecursively env "" (.dir es) (Run.init p item)).2.1 = none := by
            rw [removeRecursively] at hres ⊢
            simp only at hres ⊢
            rw [hres]
            rfl
          refine Or.inr (Or.inr ⟨_, rfl, habort2, hclash2, hf1, hf2, hf3.trans habort2,
            Or.inl ?_, fun h => by simp at h⟩)
          simp only [hleft]
          exact nodeAt_putAt_none _ _ _
  · have hdir2 : item.isDirectory = false := by simpa using hdir
    rw [if_neg hdir]
    cases hnode : nodeAt p.localDir p.disk (p.localDir ++ item.file) with
    | none =>
      exact Or.inr (Or.inr ⟨_, rfl, habort2, hclash2, rfl, rfl, habort2, Or.inl hnode,
        fun _ => rfl⟩)
    | some n =>
      dsimp only
      by_cases hok : (!n.isDir && !env.removeFails (p.localDir ++ item.file)) = true
      · rw [hok]
        exact Or.inr (Or.inr ⟨_, rfl, habort2, hclash2, rfl, rfl, habort2,
          Or.inl (nodeAt_putAt_none _ _ _), fun h => by simp at h⟩)
      · have hok2 : (!n.isDir && !env.removeFails (p.localDir ++ item.file)) = false := by
          simpa using hok
        rw [hok2]
        exact Or.inr (Or.inl ⟨_, _, rfl⟩)

/-! ## Journal commit -/

theorem rename_finish_log (r : Run) :
    ∃ pre, (PropagateLocalRename.finish r).log =
      pre ++ [Event.commit "localRename", Event.done .Success ""] := by
  unfold PropagateLocalRename.finish
  dsimp only
  cases r.item.isDirectory <;>
    simp [Run.done, Run.emit, Run.commit, Run.setFileRecord, Run.deleteFileRecord]

/-- The ways `PropagateLocalRename::start` can end. -/
theorem rename_start_cases (env : Env) (p : OwncloudPropagator) (item : SyncFileItem) :
    (p.abortRequested = true ∧ PropagateLocalRename.start env p item = Run.init p item) ∨
    (∃ (r : Run) (m : String), PropagateLocalRename.start env p item = r.done .NormalError m) ∨
    (∃ r : Run, PropagateLocalRename.start env p item = PropagateLocalRename.finish r ∧
      r.item = item ∧ r.propagator.journal = p.journal) := by
  unfold PropagateLocalRename.start
  dsimp only
  by_cases habort : p.abortRequested = true
  · rw [if_pos habort]
    exact Or.inl ⟨habort, rfl⟩
  rw [if_neg habort]
  by_cases hne : (item.file != item.renameTarget) = true
  · rw [if_pos hne]
    by_cases hclash : (compareCaseInsensitive item.file item.renameTarget != 0
        && env.localFileNameClash item.renameTarget) = true
    · rw [if_pos hclash]
      exact Or.inr (Or.inl ⟨_, _, rfl⟩)
    · rw [if_neg hclash]
      cases FileSystem.rename env p.localDir p.disk (p.getFilePath item.file)
          (p.getFilePath item.renameTarget) with
      | error e => exact Or.inr (Or.inl ⟨_, _, rfl⟩)
      | ok d => exact Or.inr (Or.inr ⟨_, rfl, rfl, rfl⟩)
  · rw [if_neg hne]
    exact Or.inr (Or.inr ⟨_, rfl, rfl, rfl⟩)

/-- C5 (amended): a RemoveLocal or RenameLocal run that signals `done(Success)`
has called the journal `commit` right before the `done` signal, hence after
every journal mutation of the run; a MkdirLocal run makes no journal call at
all, neither a mutation nor a commit, and leaves the journal as it was. -/
theorem commit_precedes_success (env : Env) (p : OwncloudPropagator) (item : SyncFileItem) :
    ((PropagateLocalRemove.start env p item).doneWith .Success = true →
      ∃ pre, (PropagateLocalRemove.start env p item).log =
        pre ++ [Event.commit "Local remove", Event.done .Success ""]) ∧
    ((PropagateLocalRename.start env p item).doneWith .Success = true →
      ∃ pre, (PropagateLocalRename.start env p item).log =
        pre ++ [Event.commit "localRename", Event.done .Success ""]) ∧
    (∀ e ∈ (PropagateLocalMkdir.start env p item).log, e.isJournalCall = false) ∧
    (PropagateLocalMkdir.start env p item).propagator.journal = p.journal := by
  refine ⟨?_, ?_, ?_, ?_⟩
  · intro h
    rcases remove_start_cases env p item with ⟨_, hs⟩ | ⟨r, m, hs⟩ | ⟨r, hs, _⟩
    · rw [hs, doneWith_init] at h
      exact absurd h (by simp)
    · rw [hs, doneWith_done] at h
      exact absurd h (by decide)
    · rw [hs, remove_finish_log]
      exact ⟨_, rfl⟩
  · intro h
    rcases rename_start_cases env p item with ⟨_, hs⟩ | ⟨r, m, hs⟩ | ⟨r, hs, _⟩
    · rw [hs, doneWith_init] at h
      exact absurd h (by simp)
    · rw [hs, doneWith_done] at h
      exact absurd h (by decide)
    · rw [hs]
      exact rename_finish_log r
  · unfold PropagateLocalMkdir.start
    dsimp only
    intro e he
    split at he
    · simp [Run.init] at he
    · split at he
      · simp [Run.init, Run.done, Run.emit] at he
        subst he
        rfl
      · split at he <;>
          simp [Run.init, Run.done, Run.emit, Run.addTouchedFile] at he <;>
          rcases he with he | he | he <;> subst he <;> rfl
  · unfold PropagateLocalMkdir.start
    dsimp only
    split
    · rfl
    · split
      · rfl
      · split <;> rfl

theorem commit_precedes_success_witness :
    (PropagateLocalRemove.start unixEnv sampleTree dirItemA).doneWith .Success = true ∧
    ∃ pre, (PropagateLocalRemove.start unixEnv sampleTree dirItemA).log =
      pre ++ [Event.commit "Local remove", Event.done .Success ""] :=
  ⟨by decide, (commit_precedes_success unixEnv sampleTree dirItemA).1 (by decide)⟩

/-- C5 as stated fails for MkdirLocal: the run signals `done(Success)` and its
log holds no `commit`. -/
theorem mkdir_success_without_commit :
    (PropagateLocalMkdir.start unixEnv emptyTree dirItemXY).doneWith .Success = true ∧
    (PropagateLocalMkdir.start unixEnv emptyTree dirItemXY).log.any Event.isJournalCall
      = false := by
  decide

/-! ## Rename and the journal -/

theorem countAt_setFileRecord (j : SyncJournalDb) (record : SyncJournalFileRecord) :
    (j.setFileRecord record).countAt record.path = 1 := by
  simp [SyncJournalDb.setFileRecord, SyncJournalDb.countAt, List.filter_append,
    List.filter_filter]

theorem countAt_commit (j : SyncJournalDb) (label path : String) :
    (j.commit label).countAt path = j.countAt path := rfl

theorem hasRecord_commit (j : SyncJournalDb) (label path : String) :
    (j.commit label).hasRecord path = j.hasRecord path := rfl

theorem hasRecord_deleteFileRecord (j : SyncJournalDb) (path : String) (recurse : Bool) :
    (j.deleteFileRecord path recurse).hasRecord path = false := by
  simp only [SyncJournalDb.hasRecord, SyncJournalDb.deleteFileRecord, List.any_eq_false,
    List.mem_filter]
  intro r hr
  simp only [Bool.not_eq_true', Bool.or_eq_false_iff] at hr
  simp [hr.2.1]

theorem hasRecord_setFileRecord_of_ne (j : SyncJournalDb) (record : SyncJournalFileRecord)
    (path : String) (h : path ≠ record.path) :
    (j.setFileRecord record).hasRecord path = j.hasRecord path := by
  simp only [SyncJournalDb.hasRecord, SyncJournalDb.setFileRecord, List.any_append,
    List.any_cons, List.any_nil, Bool.or_false]
  have h1 : (record.path == path) = false := by simpa using fun hc => h hc.symm
  rw [h1, Bool.or_false, List.any_filter]
  congr 1
  funext r
  by_cases hr : r.path = path
  · have : (r.path == record.path) = false := by
      rw [hr]
      simpa using h
    simp [hr, h]
  · simp [hr]

theorem rename_finish_journal (r : Run) (h : r.item.isDirectory = false) :
    (PropagateLocalRename.finish r).propagator.journal =
      ((r.propagator.journal.deleteFileRecord r.item.originalFile false).setFileRecord
        { path := r.item.renameTarget, isDirectory := false }).commit "localRename" := by
  simp [PropagateLocalRename.finish, Run.deleteFileRecord, h, Run.setFileRecord, Run.commit,
    Run.done, Run.emit]

/-- C4 (amended): after a RenameLocal run on a non-directory item that signals
`done(Success)`, the journal has exactly one record at `renameTarget`, and no
record at `originalFile` provided `originalFile` differs from `renameTarget`. -/
theorem rename_success_journal (env : Env) (p : OwncloudPropagator) (item : SyncFileItem)
    (hfile : item.isDirectory = false)
    (h : (PropagateLocalRename.start env p item).doneWith .Success = true) :
    (PropagateLocalRename.start env p item).propagator.journal.countAt item.renameTarget = 1 ∧
    (item.originalFile ≠ item.renameTarget →
      (PropagateLocalRename.start env p item).propagator.journal.hasRecord item.originalFile
        = false) := by
  rcases rename_start_cases env p item with ⟨_, hs⟩ | ⟨r, m, hs⟩ | ⟨r, hs, hitem, hj⟩
  · rw [hs, doneWith_init] at h
    exact absurd h (by simp)
  · rw [hs, doneWith_done] at h
    exact absurd h (by decide)
  · have hfile2 : r.item.isDirectory = false := by rw [hitem]; exact hfile
    rw [hs, rename_finish_journal r hfile2, hitem]
    refine ⟨?_, ?_⟩
    · rw [countAt_commit]
      exact countAt_setFileRecord _ { path := item.renameTarget, isDirectory := false }
    · intro hne
      rw [hasRecord_commit, hasRecord_setFileRecord_of_ne _ _ _ hne]
      exact hasRecord_deleteFileRecord _ _ _

theorem rename_success_journal_witness :
    (PropagateLocalRename.start unixEnv sampleTree renameItem).propagator.journal.countAt
      "c.txt" = 1 :=
  (rename_success_journal unixEnv sampleTree renameItem rfl (by decide)).1

/-- C4 as stated fails when `originalFile` equals `renameTarget`: the run signals
`done(Success)` and the journal has a record at `originalFile`. -/
theorem rename_keeps_record_at_originalFile :
    settledItem.isDirectory = false ∧
    (PropagateLocalRename.start unixEnv sampleTree settledItem).doneWith .Success = true ∧
    (PropagateLocalRename.start unixEnv sampleTree settledItem).propagator.journal.hasRecord
      settledItem.originalFile = true := by
  decide

/-! ## Rename and name clashes -/

/-- With nothing to remove, `PropagateLocalRemove::start` goes straight to lines
130-133. -/
theorem remove_start_noop (env : Env) (p : OwncloudPropagator) (item : SyncFileItem)
    (habort : p.abortRequested = false) (hclash : env.localFileNameClash item.file = false)
    (hnode : nodeAt p.localDir p.disk (p.localDir ++ item.file) = none ∨
      (item.isDirectory = true ∧
        nodeAt p.localDir p.disk (p.localDir ++ item.file) = some .file)) :
    PropagateLocalRemove.start env p item = PropagateLocalRemove.finish (Run.init p item) := by
  have hab : ¬ p.abortRequested = true := by simp [habort]
  have hcl : ¬ env.localFileNameClash item.file = true := by simp [hclash]
  unfold PropagateLocalRemove.start
  dsimp only
  rw [if_neg hab, if_neg hcl]
  rcases hnode with hnone | ⟨hdir, hfile⟩
  · rw [hnone]
    split <;> rfl
  · rw [if_pos hdir, hfile]

theorem fileExists_eq_false_iff (p : OwncloudPropagator) (abs : String) :
    p.fileExists abs = false ↔ nodeAt p.localDir p.disk abs = none := by
  unfold OwncloudPropagator.fileExists
  cases nodeAt p.localDir p.disk abs <;> simp

/-- C9: when nothing is at `localDir + item.file`, abort is not requested and
there is no name clash, RemoveLocal signals progress, deletes the journal record
at `originalFile` (recursively for a directory item), commits and signals
`done(Success)`, in this order and with no call on the disk, which is left as
it was; and after any RemoveLocal run that signalled `done(Success)` a second
run on the resulting context signals `done(Success)` again. -/
theorem remove_missing_target (env : Env) (p : OwncloudPropagator) (item : SyncFileItem) :
    (p.fileExists (p.localDir ++ item.file) = false → p.abortRequested = false →
      env.localFileNameClash item.file = false →
      (PropagateLocalRemove.start env p item).log =
        [Event.progress item 0,
          Event.deleteFileRecord item.originalFile item.isDirectory,
          Event.commit "Local remove", Event.done .Success ""] ∧
      (PropagateLocalRemove.start env p item).propagator.disk = p.disk ∧
      (PropagateLocalRemove.start env p item).propagator.journal =
        (p.journal.deleteFileRecord item.originalFile item.isDirectory).commit
          "Local remove") ∧
    ((PropagateLocalRemove.start env p item).doneWith .Success = true →
      (PropagateLocalRemove.start env (PropagateLocalRemove.start env p item).propagator
        item).doneWith .Success = true) := by
  refine ⟨?_, ?_⟩
  · intro hmissing habort hclash
    rw [fileExists_eq_false_iff] at hmissing
    rw [remove_start_noop env p item habort hclash (Or.inl hmissing)]
    refine ⟨?_, ?_, ?_⟩
    · rw [remove_finish_log]
      rfl
    · rw [remove_finish_propagator]
      rfl
    · rw [remove_finish_propagator]
      rfl
  · intro h
    rcases remove_start_cases env p item with ⟨_, hs⟩ | ⟨r, m, hs⟩ |
      ⟨r, hs, habort, hclash, hitem, hloc, hab2, hdisk, _⟩
    · rw [hs, doneWith_init] at h
      exact absurd h (by simp)
    · rw [hs, doneWith_done] at h
      exact absurd h (by decide)
    · rw [hs, remove_finish_propagator]
      have hnode : nodeAt r.propagator.localDir r.propagator.disk
            (r.propagator.localDir ++ item.file) = none ∨
          (item.isDirectory = true ∧ nodeAt r.propagator.localDir r.propagator.disk
            (r.propagator.localDir ++ item.file) = some .file) := by
        rw [hloc]
        rcases hdisk with hnone | ⟨hdir, hfile, hsame⟩
        · exact Or.inl hnone
        · exact Or.inr ⟨hdir, by rw [hsame]; exact hfile⟩
      have key := remove_start_noop env
        { r.propagator with
          journal := (r.propagator.journal.deleteFileRecord r.item.originalFile
            r.item.isDirectory).commit "Local remove" } item hab2 hclash hnode
      exact (congrArg (fun x => x.doneWith .Success) key).trans (remove_finish_doneWith _)

theorem remove_missing_target_witness :
    sampleTree.fileExists (sampleTree.localDir ++ goneItem.file) = false ∧
    sampleTree.abortRequested = false ∧
    unixEnv.localFileNameClash goneItem.file = false ∧
    (PropagateLocalRemove.start unixEnv sampleTree goneItem).log =
      [Event.progress goneItem 0,
        Event.deleteFileRecord goneItem.originalFile goneItem.isDirectory,
        Event.commit "Local remove", Event.done .Success ""] :=
  ⟨by decide, rfl, rfl,
    ((remove_missing_target unixEnv sampleTree goneItem).1 (by decide) rfl rfl).1⟩

theorem dirExists_of_file (p : OwncloudPropagator) (abs : String)
    (h : nodeAt p.localDir p.disk abs = some .file) :
    p.fileExists abs = true ∧ p.dirExists abs = false := by
  simp [OwncloudPropagator.fileExists, OwncloudPropagator.dirExists, h, Node.isDir]

/-- C2 (amended): if RemoveLocal signals `done(Success)` and, for a directory
item, what is on disk at `localDir + item.file` (if anything) is a directory,
then nothing is at `localDir + item.file` afterwards. -/
theorem remove_success_gone (env : Env) (p : OwncloudPropagator) (item : SyncFileItem)
    (hkind : item.isDirectory = true → p.fileExists (p.localDir ++ item.file) = true →
      p.dirExists (p.localDir ++ item.file) = true)
    (h : (PropagateLocalRemove.start env p item).doneWith .Success = true) :
    (PropagateLocalRemove.start env p item).propagator.fileExists (p.localDir ++ item.file)
      = false := by
  rcases remove_start_cases env p item with ⟨_, hs⟩ | ⟨r, m, hs⟩ |
    ⟨r, hs, habort, hclash, hitem, hloc, hab2, hdisk, _⟩
  · rw [hs, doneWith_init] at h
    exact absurd h (by simp)
  · rw [hs, doneWith_done] at h
    exact absurd h (by decide)
  · rw [hs, remove_finish_propagator, fileExists_eq_false_iff]
    show nodeAt r.propagator.localDir r.propagator.disk (p.localDir ++ item.file) = none
    rw [hloc]
    rcases hdisk with hnone | ⟨hdir, hfile, _⟩
    · exact hnone
    · obtain ⟨h1, h2⟩ := dirExists_of_file p _ hfile
      rw [hkind hdir h1] at h2
      exact absurd h2 (by simp)

theorem remove_success_gone_witness :
    (PropagateLocalRemove.start unixEnv sampleTree dirItemA).doneWith .Success = true ∧
    (PropagateLocalRemove.start unixEnv sampleTree dirItemA).propagator.fileExists
      (sampleTree.localDir ++ dirItemA.file) = false :=
  ⟨by decide, remove_success_gone unixEnv sampleTree dirItemA (by decide) (by decide)⟩

/-- C2 as stated fails for a directory item whose path holds a regular file:
`QDir(filename).exists()` is false, the run signals `done(Success)`, and the
file is still there. -/
theorem remove_success_leaves_file :
    (PropagateLocalRemove.start unixEnv fileTree dirItemA).doneWith .Success = true ∧
    (PropagateLocalRemove.start unixEnv fileTree dirItemA).propagator.fileExists
      (fileTree.localDir ++ dirItemA.file) = true := by
  decide

/-! ## Touched files -/

theorem mem_addTouchedFile (r : Run) (path : String) :
    path ∈ (r.addTouchedFile path).propagator.touchedFiles := by
  unfold Run.addTouchedFile
  dsimp only
  split
  · assumption
  · simp

theorem mem_addTouchedFile_of_mem (r : Run) (path q : String)
    (h : q ∈ r.propagator.touchedFiles) :
    q ∈ (r.addTouchedFile path).propagator.touchedFiles := by
  unfold Run.addTouchedFile
  dsimp only
  split
  · assumption
  · simp [h]

theorem rename_finish_touched (r : Run) :
    (PropagateLocalRename.finish r).propagator.touchedFiles = r.propagator.touchedFiles ∧
    ∃ rest, (PropagateLocalRename.finish r).log = r.log ++ rest ∧
      ∀ src dst ok, Event.rename src dst ok ∉ rest := by
  unfold PropagateLocalRename.finish
  dsimp only
  by_cases h : r.item.isDirectory = true
  · refine ⟨by simp [h, Run.done, Run.emit, Run.commit, Run.deleteFileRecord], _, by
      simp [h, Run.done, Run.emit, Run.commit, Run.deleteFileRecord]; rfl, ?_⟩
    intro src dst ok hmem
    simp at hmem
  · refine ⟨by simp [h, Run.done, Run.emit, Run.commit, Run.deleteFileRecord,
      Run.setFileRecord], _, by
      simp [h, Run.done, Run.emit, Run.commit, Run.deleteFileRecord, Run.setFileRecord]
      rfl, ?_⟩
    intro src dst ok hmem
    simp at hmem

/-- C7 (amended): in every run of MkdirLocal the native form of the target path
`localDir + item.file` is added to `touchedFiles` right before the `mkpath`
call and is a member afterwards; in every run of RenameLocal the paths renamed
out of and into, `localDir + item.file` and `localDir + item.renameTarget`, are
added right before the `rename` call and are members afterwards. Nothing is
said of the parent directories that `mkpath` creates. -/
theorem touched_before_disk_call (env : Env) (p : OwncloudPropagator) (item : SyncFileItem) :
    (∀ root rel ok, Event.mkpath root rel ok ∈ (PropagateLocalMkdir.start env p item).log →
      (∃ post, (PropagateLocalMkdir.start env p item).log =
        Event.addTouchedFile (env.toNativeSeparators (env.dirPath (p.localDir ++ item.file)))
          :: Event.mkpath root rel ok :: post) ∧
      env.toNativeSeparators (env.dirPath (p.localDir ++ item.file)) ∈
        (PropagateLocalMkdir.start env p item).propagator.touchedFiles) ∧
    (∀ src dst ok, Event.rename src dst ok ∈ (PropagateLocalRename.start env p item).log →
      src = p.localDir ++ item.file ∧ dst = p.localDir ++ item.renameTarget ∧
      (∃ pre post, (PropagateLocalRename.start env p item).log =
        pre ++ Event.addTouchedFile src :: Event.addTouchedFile dst ::
          Event.rename src dst ok :: post) ∧
      src ∈ (PropagateLocalRename.start env p item).propagator.touchedFiles ∧
      dst ∈ (PropagateLocalRename.start env p item).propagator.touchedFiles) := by
  refine ⟨?_, ?_⟩
  · intro root rel ok
    unfold PropagateLocalMkdir.start
    dsimp only
    split
    · intro h
      simp [Run.init] at h
    · split
      · intro h
        simp [Run.init, Run.done, Run.emit] at h
      · split
        · intro h
          simp only [Run.init, Run.done, Run.emit, Run.addTouchedFile, List.nil_append,
            List.mem_append, List.mem_cons, List.mem_singleton, List.not_mem_nil,
            List.cons_append, or_false, false_or, reduceCtorEq, Event.mkpath.injEq] at h
          obtain ⟨h1, h2, h3⟩ := h
          subst h1 h2 h3
          exact ⟨⟨_, rfl⟩, mem_addTouchedFile (Run.init p item) _⟩
        · intro h
          simp only [Run.init, Run.done, Run.emit, Run.addTouchedFile, List.nil_append,
            List.mem_append, List.mem_cons, List.mem_singleton, List.not_mem_nil,
            List.cons_append, or_false, false_or, reduceCtorEq, Event.mkpath.injEq] at h
          obtain ⟨h1, h2, h3⟩ := h
          subst h1 h2 h3
          exact ⟨⟨_, rfl⟩, mem_addTouchedFile (Run.init p item) _⟩
  · intro src dst ok
    unfold PropagateLocalRename.start
    dsimp only
    split
    · intro h
      simp [Run.init] at h
    · split
      · split
        · intro h
          simp [Run.init, Run.done, Run.emit, Run.progress] at h
        · have hmem1 := mem_addTouchedFile_of_mem
            (((Run.init p item).progress 0).addTouchedFile (p.getFilePath item.file))
            (p.getFilePath item.renameTarget) (p.getFilePath item.file)
            (mem_addTouchedFile _ _)
          have hmem2 := mem_addTouchedFile
            (((Run.init p item).progress 0).addTouchedFile (p.getFilePath item.file))
            (p.getFilePath item.renameTarget)
          split
          · intro h
            simp only [Run.init, Run.done, Run.emit, Run.addTouchedFile, Run.progress,
              List.nil_append, List.mem_append, List.mem_cons, List.mem_singleton,
              List.not_mem_nil, List.cons_append, or_false, false_or, reduceCtorEq,
              Event.rename.injEq] at h
            obtain ⟨h1, h2, h3⟩ := h
            subst h1 h2 h3
            exact ⟨rfl, rfl, ⟨[Event.progress item 0], _, rfl⟩, hmem1, hmem2⟩
          · intro h
            obtain ⟨ht, rest, hlog, hrest⟩ := rename_finish_touched
              (({ (((Run.init p item).progress 0).addTouchedFile
                    (p.getFilePath item.file)).addTouchedFile
                      (p.getFilePath item.renameTarget) with
                  propagator := { ((((Run.init p item).progress 0).addTouchedFile
                    (p.getFilePath item.file)).addTouchedFile
                      (p.getFilePath item.renameTarget)).propagator with
                        disk := ‹Option Node› } } : Run).emit
                (.rename (p.getFilePath item.file) (p.getFilePath item.renameTarget) true))
            rw [hlog] at h ⊢
            rw [ht]
            simp only [Run.init, Run.emit, Run.addTouchedFile, Run.progress,
              List.nil_append, List.mem_append, List.mem_cons, List.mem_singleton,
              List.not_mem_nil, List.cons_append, or_false, false_or, reduceCtorEq,
              Event.rename.injEq] at h
            rcases h with ⟨h1, h2, h3⟩ | h
            · subst h1 h2 h3
              exact ⟨rfl, rfl, ⟨[Event.progress item 0], rest, by
                simp [Run.init, Run.emit, Run.addTouchedFile, Run.progress]⟩, hmem1, hmem2⟩
            · exact absurd h (hrest _ _ _)
      · intro h
        obtain ⟨_, rest, hlog, hrest⟩ := rename_finish_touched (Run.init p item)
        rw [hlog] at h
        simp only [Run.init, List.nil_append] at h
        exact absurd h (hrest _ _ _)

/-- C7 as stated fails for a MkdirLocal of `x/y` in an empty tree: `mkpath`
creates `/root/x`, which was not there before and is not in `touchedFiles`. -/
theorem mkdir_parent_not_touched :
    emptyTree.fileExists "/root/x" = false ∧
    (PropagateLocalMkdir.start unixEnv emptyTree dirItemXY).propagator.fileExists "/root/x"
      = true ∧
    "/root/x" ∉ (PropagateLocalMkdir.start unixEnv emptyTree dirItemXY).propagator.touchedFiles
    := by
  decide

theorem touched_before_disk_call_witness :
    Event.mkpath "/root/" "x/y" true ∈
      (PropagateLocalMkdir.start unixEnv emptyTree dirItemXY).log ∧
    unixEnv.toNativeSeparators (unixEnv.dirPath (emptyTree.localDir ++ dirItemXY.file)) ∈
      (PropagateLocalMkdir.start unixEnv emptyTree dirItemXY).propagator.touchedFiles :=
  ⟨by decide,
    ((touched_before_disk_call unixEnv emptyTree dirItemXY).1 "/root/" "x/y" true
      (by decide)).2⟩

/-! ## Creating then removing a directory -/

theorem eraseEntry_of_lookup_none (c : String) :
    ∀ es : List (String × Node), es.lookup c = none → eraseEntry c es = es
  | [], _ => rfl
  | (k, v) :: rest, h => by
    rw [List.lookup_cons] at h
    unfold eraseEntry
    by_cases hk : c == k
    · simp [hk] at h
    · simp only [hk] at h
      have hk2 : (k == c) = false := by
        simp only [beq_iff_eq] at hk
        simpa using fun hc : k = c => hk hc.symm
      simp only [List.filter_cons, hk2, Bool.not_false, if_true]
      congr 1
      exact eraseEntry_of_lookup_none c rest h

theorem eraseEntry_setEntry (c : String) (n : Node) :
    ∀ es : List (String × Node), es.lookup c = none → eraseEntry c (setEntry c n es) = es
  | [], _ => by simp [setEntry, eraseEntry]
  | (k, v) :: rest, h => by
    rw [List.lookup_cons] at h
    by_cases hk : c == k
    · simp [hk] at h
    · simp only [hk] at h
      have hk2 : (k == c) = false := by
        simp only [beq_iff_eq] at hk
        simpa using fun hc : k = c => hk hc.symm
      have ih := eraseEntry_setEntry c n rest h
      unfold eraseEntry at ih ⊢
      simp only [setEntry, hk2, Bool.false_eq_true, if_false, List.filter_cons,
        Bool.not_false, if_true]
      rw [ih]

theorem setEntry_setEntry (c : String) (n ch : Node) :
    ∀ es : List (String × Node), es.lookup c = some ch →
      setEntry c ch (setEntry c n es) = es
  | [], h => by simp [List.lookup] at h
  | (k, v) :: rest, h => by
    rw [List.lookup_cons] at h
    by_cases hk : c == k
    · simp only [hk, Option.some.injEq] at h
      have hk2 : (k == c) = true := by
        simp only [beq_iff_eq] at hk ⊢
        exact hk.symm
      have hkc : c = k := by simpa using hk
      simp [setEntry, hk2, h, hkc]
    · simp only [hk] at h
      have hk2 : (k == c) = false := by
        simp only [beq_iff_eq] at hk
        simpa using fun hc : k = c => hk hc.symm
      simp only [setEntry, hk2, Bool.false_eq_true, if_false]
      rw [setEntry_setEntry c n ch rest h]

theorem parentIsDir_cons_cons (es : List (String × Node)) (c c2 : String)
    (rest : List String) (h : parentIsDir (some (.dir es)) (c :: c2 :: rest) = true) :
    ∃ ch, es.lookup c = some ch ∧ parentIsDir (some ch) (c2 :: rest) = true := by
  unfold parentIsDir at h ⊢
  simp only [List.dropLast_cons₂, Node.get?] at h
  cases hl : es.lookup c with
  | none =>
    rw [hl] at h
    cases hd : (c2 :: rest).dropLast with
    | nil => rw [hd] at h; simp [Node.get?] at h
    | cons a b => rw [hd] at h; simp [Node.get?] at h
  | some ch =>
    rw [hl] at h
    exact ⟨ch, rfl, h⟩

theorem parentIsDir_single (disk : Option Node) (c : String)
    (h : parentIsDir disk [c] = true) : ∃ es, disk = some (.dir es) := by
  unfold parentIsDir at h
  simp only [List.dropLast_single, Node.get?] at h
  cases disk with
  | none => simp at h
  | some n =>
    cases n with
    | file => simp [Node.isDir] at h
    | dir es => exact ⟨es, rfl⟩

theorem parentIsDir_cons (disk : Option Node) (c : String) (cs : List String)
    (h : parentIsDir disk (c :: cs) = true) : ∃ es, disk = some (.dir es) := by
  cases cs with
  | nil => exact parentIsDir_single disk c h
  | cons c2 rest =>
    unfold parentIsDir at h
    simp only [List.dropLast_cons₂] at h
    cases disk with
    | none => simp [Node.get?] at h
    | some n =>
      cases n with
      | file => simp [Node.get?] at h
      | dir es => exact ⟨es, rfl⟩

/-- Where the target is missing and its parent is a directory, a successful
`mkpath` puts one empty directory at the target. -/
theorem mkpath_eq_put (env : Env) (localDir : String) :
    ∀ (cs pre : List String) (disk : Option Node),
      Node.get? disk cs = none → parentIsDir disk cs = true →
      (mkpath env localDir pre cs disk).1 = true →
      (mkpath env localDir pre cs disk).2 = Node.put (some (.dir [])) cs disk
  | [], pre, disk, hget, hpar, _ => by
    unfold parentIsDir at hpar
    simp only [Node.get?] at hget
    simp [hget, Node.get?] at hpar
  | [c], pre, disk, hget, hpar, hok => by
    obtain ⟨es, rfl⟩ := parentIsDir_single disk c hpar
    simp only [Node.get?] at hget
    simp only [mkpath, hget] at hok ⊢
    simp only [Node.put, hget]
    by_cases hf : env.mkdirFails (absOf localDir (pre ++ [c])) = true
    · simp [hf] at hok
    · simp [hf]
  | c :: c2 :: rest, pre, disk, hget, hpar, hok => by
    obtain ⟨es, rfl⟩ := parentIsDir_cons disk c _ hpar
    obtain ⟨ch, hl, hpar2⟩ := parentIsDir_cons_cons es c c2 rest hpar
    simp only [Node.get?, hl] at hget
    simp only [mkpath, hl] at hok ⊢
    simp only [Node.put, hl]
    rw [mkpath_eq_put env localDir (c2 :: rest) (pre ++ [c]) (some ch) hget hpar2 hok]

theorem put_cons_dir (new : Option Node) (c : String) (cs : List String)
    (es : List (String × Node)) :
    Node.put new (c :: cs) (some (.dir es)) =
      some (.dir (putEntry c (Node.put new cs (es.lookup c)) es)) := by
  simp [Node.put]

theorem get?_cons_dir (c : String) (cs : List String) (es : List (String × Node)) :
    Node.get? (some (.dir es)) (c :: cs) = Node.get? (es.lookup c) cs := by
  simp [Node.get?]

/-- Where the target is missing and its parent is a directory, removing what
was put at the target gives the tree back. -/
theorem put_none_put (n : Node) :
    ∀ (cs : List String) (disk : Option Node),
      Node.get? disk cs = none → parentIsDir disk cs = true →
      Node.put none cs (Node.put (some n) cs disk) = disk
  | [], disk, hget, hpar => by
    unfold parentIsDir at hpar
    simp only [Node.get?] at hget
    simp [hget, Node.get?] at hpar
  | [c], disk, hget, hpar => by
    obtain ⟨es, rfl⟩ := parentIsDir_single disk c hpar
    simp only [Node.get?] at hget
    simp only [Node.put, putEntry, hget, lookup_setEntry]
    rw [eraseEntry_setEntry c n es hget]
  | c :: c2 :: rest, disk, hget, hpar => by
    obtain ⟨es, rfl⟩ := parentIsDir_cons disk c _ hpar
    obtain ⟨ch, hl, hpar2⟩ := parentIsDir_cons_cons es c c2 rest hpar
    simp only [Node.get?, hl] at hget
    obtain ⟨es2, hch⟩ := parentIsDir_cons (some ch) c2 _ hpar2
    have hch2 : ch = .dir es2 := Option.some.inj hch
    subst hch2
    have ih := put_none_put n (c2 :: rest) (some (.dir es2)) hget hpar2
    obtain ⟨Y, hY⟩ : ∃ Y, Node.put (some n) (c2 :: rest) (some (.dir es2)) = some (.dir Y) :=
      ⟨_, put_cons_dir _ _ _ _⟩
    rw [hY] at ih
    rw [put_cons_dir (some n) c (c2 :: rest) es, hl, hY]
    simp only [putEntry]
    rw [put_cons_dir none c (c2 :: rest), lookup_setEntry, ih]
    simp only [putEntry]
    rw [setEntry_setEntry c _ _ es hl]

theorem get?_put_some (n : Node) :
    ∀ (cs : List String) (disk : Option Node),
      parentIsDir disk cs = true → cs ≠ [] →
      Node.get? (Node.put (some n) cs disk) cs = some n
  | [], _, _, hne => absurd rfl hne
  | [c], disk, hpar, _ => by
    obtain ⟨es, rfl⟩ := parentIsDir_single disk c hpar
    simp [Node.put, Node.get?, putEntry, lookup_setEntry]
  | c :: c2 :: rest, disk, hpar, _ => by
    obtain ⟨es, rfl⟩ := parentIsDir_cons disk c _ hpar
    obtain ⟨ch, hl, hpar2⟩ := parentIsDir_cons_cons es c c2 rest hpar
    obtain ⟨es2, hch⟩ := parentIsDir_cons (some ch) c2 _ hpar2
    have hch2 : ch = .dir es2 := Option.some.inj hch
    subst hch2
    have ih := get?_put_some n (c2 :: rest) (some (.dir es2)) hpar2 (by simp)
    obtain ⟨Y, hY⟩ : ∃ Y, Node.put (some n) (c2 :: rest) (some (.dir es2)) = some (.dir Y) :=
      ⟨_, put_cons_dir _ _ _ _⟩
    rw [hY] at ih
    rw [put_cons_dir (some n) c (c2 :: rest) es, hl, hY, get?_cons_dir, lookup_putEntry]
    exact ih

theorem mkdir_start_success (env : Env) (p : OwncloudPropagator) (item : SyncFileItem)
    (h : (PropagateLocalMkdir.start env p item).doneWith .Success = true) :
    (mkpath env p.localDir [] (splitPath item.file) p.disk).1 = true ∧
    (PropagateLocalMkdir.start env p item).propagator.localDir = p.localDir ∧
    (PropagateLocalMkdir.start env p item).propagator.journal = p.journal ∧
    (PropagateLocalMkdir.start env p item).propagator.disk =
      (mkpath env p.localDir [] (splitPath item.file) p.disk).2 := by
  unfold PropagateLocalMkdir.start at h ⊢
  dsimp only at h ⊢
  split at h
  · rw [doneWith_init] at h
    exact absurd h (by simp)
  · split at h
    · rw [doneWith_done] at h
      exact absurd h (by decide)
    · split at h
      · rw [doneWith_done] at h
        exact absurd h (by decide)
      · rename_i h1 h2 h3
        rw [if_neg h1, if_neg h2, if_neg h3]
        refine ⟨by simpa using h3, rfl, rfl, rfl⟩

theorem remove_start_emptyDir (env : Env) (p : OwncloudPropagator) (item : SyncFileItem)
    (habort : p.abortRequested = false) (hclash : env.localFileNameClash item.file = false)
    (hdir : item.isDirectory = true)
    (hnode : nodeAt p.localDir p.disk (p.localDir ++ item.file) = some (.dir []))
    (h : (PropagateLocalRemove.start env p item).doneWith .Success = true) :
    (PropagateLocalRemove.start env p item).propagator.disk =
      putAt p.localDir p.disk (p.localDir ++ item.file) none ∧
    (PropagateLocalRemove.start env p item).propagator.journal =
      (p.journal.deleteFileRecord item.originalFile true).commit "Local remove" := by
  have hab : ¬ p.abortRequested = true := by simp [habort]
  have hcl : ¬ env.localFileNameClash item.file = true := by simp [hclash]
  unfold PropagateLocalRemove.start at h ⊢
  dsimp only at h ⊢
  rw [if_neg hab, if_neg hcl, if_pos hdir, hnode] at h ⊢
  dsimp only at h ⊢
  by_cases hrm : env.rmdirFails (p.localDir ++ item.file) = true
  · have hres : (removeRecursively env "" (.dir []) (Run.init p item)).1 = false := by
      simp [removeRecursively, removeEntries, rmdirStep, Run.init, hrm]
    rw [hres] at h
    simp only [Bool.not_false, if_true] at h
    rw [doneWith_done] at h
    exact absurd h (by decide)
  · have hres : removeRecursively env "" (.dir []) (Run.init p item) =
        (true, none, (Run.init p item).emit (.rmdir (p.localDir ++ item.file) true)) := by
      simp [removeRecursively, removeEntries, rmdirStep, Run.init, hrm]
    rw [hres]
    simp only [Bool.not_true, Bool.false_eq_true, if_false]
    rw [remove_finish_propagator]
    simp [Run.emit, Run.init, hdir]

theorem deleteFileRecord_records_of_absent (j : SyncJournalDb) (path : String) (recurse : Bool)
    (h : j.records.all
      (fun r => !(r.path == path) && !(startsWith (path ++ "/") r.path)) = true) :
    (j.deleteFileRecord path recurse).records = j.records := by
  unfold SyncJournalDb.deleteFileRecord
  dsimp only
  rw [List.filter_eq_self]
  intro r hr
  have := List.all_eq_true.mp h r hr
  simp only [Bool.and_eq_true, Bool.not_eq_true'] at this
  simp [this.1, this.2]

/-- C8 (amended): for a relative path that is not in the tree and whose parent
is a directory of the tree, and a journal with no record at the path or below
it, a MkdirLocal of the path that ends in `Success` followed by a RemoveLocal of
the same path as a directory item that ends in `Success` leaves the disk tree
and the journal records as they were before the two jobs. -/
theorem mkdir_remove_roundtrip (env1 env2 : Env) (p : OwncloudPropagator)
    (item1 item2 : SyncFileItem)
    (hfile : item2.file = item1.file) (horig : item2.originalFile = item1.file)
    (hdir : item2.isDirectory = true)
    (hmissing : p.fileExists (p.localDir ++ item1.file) = false)
    (hparent : parentIsDir p.disk (splitPath item1.file) = true)
    (hjournal : p.journal.records.all
      (fun r => !(r.path == item1.file) && !(startsWith (item1.file ++ "/") r.path)) = true)
    (h1 : (PropagateLocalMkdir.start env1 p item1).doneWith .Success = true)
    (h2 : (PropagateLocalRemove.start env2 (PropagateLocalMkdir.start env1 p item1).propagator
      item2).doneWith .Success = true) :
    (PropagateLocalRemove.start env2 (PropagateLocalMkdir.start env1 p item1).propagator
      item2).propagator.disk = p.disk ∧
    (PropagateLocalRemove.start env2 (PropagateLocalMkdir.start env1 p item1).propagator
      item2).propagator.journal.records = p.journal.records := by
  obtain ⟨hok, hloc, hj, hd⟩ := mkdir_start_success env1 p item1 h1
  have hget : Node.get? p.disk (splitPath item1.file) = none := by
    rw [fileExists_eq_false_iff] at hmissing
    simpa [nodeAt, resolve_append] using hmissing
  have hne : splitPath item1.file ≠ [] := by
    intro hnil
    rw [hnil] at hget hparent
    simp only [Node.get?] at hget
    simp [parentIsDir, Node.get?, hget] at hparent
  rw [mkpath_eq_put env1 p.localDir _ [] p.disk hget hparent hok] at hd
  generalize PropagateLocalMkdir.start env1 p item1 = r1 at *
  have hnode : nodeAt r1.propagator.localDir r1.propagator.disk
      (r1.propagator.localDir ++ item2.file) = some (.dir []) := by
    rw [hloc, hd, hfile]
    simp only [nodeAt, resolve_append]
    exact get?_put_some _ _ _ hparent hne
  rcases remove_start_cases env2 r1.propagator item2 with ⟨_, hs⟩ | ⟨r, m, hs⟩ |
    ⟨r, _, habort, hclash, _⟩
  · rw [hs, doneWith_init] at h2
    exact absurd h2 (by simp)
  · rw [hs, doneWith_done] at h2
    exact absurd h2 (by decide)
  · obtain ⟨hdisk, hjr⟩ := remove_start_emptyDir env2 r1.propagator item2 habort hclash hdir
      hnode h2
    refine ⟨?_, ?_⟩
    · rw [hdisk, hloc, hd, hfile]
      simp only [putAt, resolve_append]
      exact put_none_put _ _ _ hget hparent
    · rw [hjr, hj, horig]
      exact deleteFileRecord_records_of_absent _ _ _ hjournal

theorem mkdir_remove_roundtrip_witness :
    emptyTree.fileExists (emptyTree.localDir ++ dirItemX.file) = false ∧
    parentIsDir emptyTree.disk (splitPath dirItemX.file) = true ∧
    (PropagateLocalMkdir.start unixEnv emptyTree dirItemX).doneWith .Success = true ∧
    (PropagateLocalRemove.start unixEnv
      (PropagateLocalMkdir.start unixEnv emptyTree dirItemX).propagator
      dirItemX).doneWith .Success = true ∧
    (PropagateLocalRemove.start unixEnv
      (PropagateLocalMkdir.start unixEnv emptyTree dirItemX).propagator
      dirItemX).propagator.disk = emptyTree.disk :=
  ⟨by decide, by decide, by decide, by decide,
    (mkdir_remove_roundtrip unixEnv unixEnv emptyTree dirItemX dirItemX rfl rfl rfl
      (by decide) (by decide) (by decide) (by decide) (by decide)).1⟩

/-- C8 as stated fails twice. For the missing path `x/y` in an empty tree both
jobs end in `Success` and the parent `/root/x`, which was not there before, is
there afterwards. For the missing path `x` and a journal holding a record at
`x/old.txt` both jobs end in `Success` and that record is gone afterwards. -/
theorem mkdir_remove_not_roundtrip :
    (emptyTree.fileExists "/root/x/y" = false ∧
      (PropagateLocalMkdir.start unixEnv emptyTree dirItemXY).doneWith .Success = true ∧
      (PropagateLocalRemove.start unixEnv
        (PropagateLocalMkdir.start unixEnv emptyTree dirItemXY).propagator
        dirItemXY).doneWith .Success = true ∧
      emptyTree.fileExists "/root/x" = false ∧
      (PropagateLocalRemove.start unixEnv
        (PropagateLocalMkdir.start unixEnv emptyTree dirItemXY).propagator
        dirItemXY).propagator.fileExists "/root/x" = true) ∧
    (staleTree.fileExists "/root/x" = false ∧
      (PropagateLocalMkdir.start unixEnv staleTree dirItemX).doneWith .Success = true ∧
      (PropagateLocalRemove.start unixEnv
        (PropagateLocalMkdir.start unixEnv staleTree dirItemX).propagator
        dirItemX).doneWith .Success = true ∧
      staleTree.journal.hasRecord "x/old.txt" = true ∧
      (PropagateLocalRemove.start unixEnv
        (PropagateLocalMkdir.start unixEnv staleTree dirItemX).propagator
        dirItemX).propagator.journal.hasRecord "x/old.txt" = false) := by
  decide

/-! ## Removal that fails at `rmdir` -/

/-- C1 at the failing input: in the tree `a/b.txt` with `rmdir` of `/root/a`
failing, RemoveLocal of the directory `a` signals `done(NormalError)`; the file
`/root/a/b.txt` existed before and is gone afterwards, and the journal still has
its record at `a/b.txt`. No journal call was made in the run. -/
theorem remove_rmdir_failure_keeps_record :
    (PropagateLocalRemove.start rmdirFailEnv sampleTree dirItemA).doneWith .NormalError
      = true ∧
    sampleTree.fileExists "/root/a/b.txt" = true ∧
    (PropagateLocalRemove.start rmdirFailEnv sampleTree dirItemA).propagator.fileExists
      "/root/a/b.txt" = false ∧
    (PropagateLocalRemove.start rmdirFailEnv sampleTree dirItemA).propagator.journal.hasRecord
      (dirItemA.originalFile ++ "/b.txt") = true ∧
    (PropagateLocalRemove.start rmdirFailEnv sampleTree dirItemA).log.any Event.isJournalCall
      = false := by
  decide

end OCC
